import Mathlib

/-!
Verification development for IconForge (src/IconForge.py), a PyQt6/Pillow
image-to-ICO converter.  The definitions below are a shallow embedding of the
pure logic of the script: the rounded-corner mask compositor
(`apply_rounded_corners_pil`), the file-list validation (`add_files_to_list`)
and the conversion driver (`run_conversion`).  GUI plumbing (widgets, dialogs,
progress bar) is abstracted away; what is kept is exactly the data each
operation computes: sizes, file names, per-pixel channel values, error
reporting and control flow.
-/

namespace IconForge

/-- Constant from the source: `MAX_FILE_SIZE_MB = 4`. -/
def MAX_FILE_SIZE_MB : ℕ := 4

/-- Constant from the source: `MAX_FILE_SIZE_BYTES = MAX_FILE_SIZE_MB * 1024 * 1024`. -/
def MAX_FILE_SIZE_BYTES : ℕ := MAX_FILE_SIZE_MB * 1024 * 1024

/-- Constant from the source: `ICON_SIZES = [16, 32, 48, 64, 128, 256]`. -/
def ICON_SIZES : List ℕ := [16, 32, 48, 64, 128, 256]

/-- One RGBA pixel: four 8-bit channels (values kept as naturals). -/
structure RGBA where
  r : ℕ
  g : ℕ
  b : ℕ
  a : ℕ
  deriving DecidableEq, Repr

/-- A decoded raster image: dimensions plus a total pixel map.  Only the
pixels with `x < width` and `y < height` are image content. -/
structure Img where
  width : ℕ
  height : ℕ
  pix : ℕ → ℕ → RGBA

/-- Pillow `image.copy()`: a fresh image with the same content (value copy). -/
def Img.copy (image : Img) : Img :=
  { width := image.width, height := image.height, pix := image.pix }

/-- Modelled from the spec: Pillow's `ImageDraw` rasterizer is outside this
repository, so corner membership follows the spec's mask description: a pixel
is inside the quarter-circle cut-out at a corner when its center `(x+1/2, y+1/2)`
is within distance `r` of the corner's inset point `(cx, cy)` (all scaled by 2
to stay in integers). -/
def inCorner (cx cy r x y : ℕ) : Bool :=
  decide ((2 * (x : ℤ) + 1 - 2 * (cx : ℤ)) ^ 2 + (2 * (y : ℤ) + 1 - 2 * (cy : ℤ)) ^ 2
            ≤ 4 * (r : ℤ) ^ 2)

/-- Modelled from the spec: `ImageDraw.rounded_rectangle((0, 0) + image.size,
radius=r, fill=255)` paints a pixel opaque exactly when it is in the rectangle
minus the four corner cut-outs: each corner square of side `r` keeps only the
quarter-circle of radius `r` centered at that corner's inset point. -/
def roundedRectOpaque (w h r x y : ℕ) : Bool :=
  if x < r ∧ y < r then inCorner r r r x y
  else if w - r ≤ x ∧ y < r then inCorner (w - r) r r x y
  else if x < r ∧ h - r ≤ y then inCorner r (h - r) r x y
  else if w - r ≤ x ∧ h - r ≤ y then inCorner (w - r) (h - r) r x y
  else true

/-- Source line 380: `safe_radius = min(radius, image.width // 2, image.height // 2)`
(Python `//` is floor division, mirrored by `Nat` division). -/
def safe_radius (radius w h : ℕ) : ℕ :=
  min radius (min (w / 2) (h / 2))

/-- The single-channel mask built by `apply_rounded_corners_pil`: value 255
inside the rounded rectangle of the clamped radius, 0 outside. -/
def maskValue (w h radius x y : ℕ) : ℕ :=
  if roundedRectOpaque w h (safe_radius radius w h) x y then 255 else 0

/-- Pillow `output.putalpha(mask)`: replace the alpha band with the mask;
color channels are untouched. -/
def putalpha (image : Img) (mask : ℕ → ℕ → ℕ) : Img :=
  { width := image.width, height := image.height,
    pix := fun x y => { image.pix x y with a := mask x y } }

/-- Source lines 373-386, `apply_rounded_corners_pil`: build the mask, copy the
input, replace the copy's alpha channel with the mask, return the copy. -/
def apply_rounded_corners_pil (image : Img) (radius : ℕ) : Img :=
  putalpha image.copy (fun x y => maskValue image.width image.height radius x y)

/-- Heap-level rendering of `apply_rounded_corners_pil` for the purity claim:
the store is the list of live image objects, the input is an index into it.
`image.copy()` allocates a fresh object at the end of the store; `putalpha`
then mutates only that fresh object in place; the function returns the fresh
object's index.  -/
def apply_rounded_corners_st (store : List Img) (i radius : ℕ) : List Img × ℕ :=
  match store[i]? with
  | none => (store, i)
  | some image =>
      let store1 := store ++ [image.copy]
      let store2 := store1.set store.length
        (putalpha image.copy (fun x y => maskValue image.width image.height radius x y))
      (store2, store.length)

/-- Spec-side definition (for the clamp-degeneration claim): pixel centers
inside the full ellipse inscribed in the `w × h` image, semi-axes `w/2` and
`h/2` centered at the image center, cleared of denominators. -/
def inscribedEllipse (w h x y : ℕ) : Bool :=
  decide (((2 * (x : ℤ) + 1 - (w : ℤ)) * (h : ℤ)) ^ 2
            + ((2 * (y : ℤ) + 1 - (h : ℤ)) * (w : ℤ)) ^ 2
            ≤ ((w : ℤ) * (h : ℤ)) ^ 2)

/-- One `.ico` file written by `run_conversion`: its file name and the list of
sizes passed to the single `img_rgba.save(..., format='ICO', sizes=...)` call
that produced it (one directory entry per listed size).  Modelled from the
spec for the entry list: Pillow's ICO encoder is outside this repository and
the spec states one entry per requested size. -/
structure IcoOutput where
  filename : String
  entrySizes : List ℕ
  deriving DecidableEq, Repr

/-- Source lines 435-451: the per-file save loop.  In separate mode one
`save` call per size writes `<base_name>_<size>.ico` with that single size; in
combined mode one `save` call writes `<base_name>.ico` with all selected
sizes.  Both branches invoke the same encode call. -/
def outputsForFile (base_name : String) (selected_sizes : List ℕ)
    (save_separately : Bool) : List IcoOutput :=
  if save_separately then
    selected_sizes.map (fun size =>
      { filename := base_name ++ "_" ++ toString size ++ ".ico",
        entrySizes := [size] })
  else
    [{ filename := base_name ++ ".ico", entrySizes := selected_sizes }]

/-- One entry of the file list handed to the conversion loop: its base name
(path without directory and extension) and whether `Image.open`, the RGBA
conversion and the saves all succeed (`ok = false` models a corrupted or
unreadable input whose `Image.open` raises). -/
structure SourceFile where
  base_name : String
  ok : Bool
  deriving DecidableEq, Repr

/-- Source lines 424-460: the conversion loop body.  Each file that opens
successfully contributes its outputs; the first failing file stops the loop
(`return # Stop the process on error`) after reporting its name, producing no
output of its own. -/
def convertFiles (files : List SourceFile) (sizes : List ℕ) (sep : Bool) :
    List IcoOutput × Option String :=
  match files with
  | [] => ([], none)
  | f :: rest =>
      if f.ok then
        let r := convertFiles rest sizes sep
        (outputsForFile f.base_name sizes sep ++ r.1, r.2)
      else
        ([], some f.base_name)

/-- How `run_conversion` ends: early return for an empty file list, early
return when no sizes remain selected, abort at the first conversion error
(naming the offending file), or success with the number of files created. -/
inductive Outcome where
  | noFiles
  | noSizes
  | errorAt (base_name : String)
  | success (conversion_count : ℕ)
  deriving DecidableEq, Repr

/-- Observable result of `run_conversion`: the `.ico` files written, whether
the 256-under-8-bit warning dialog was shown, and how the run ended. -/
structure ConvResult where
  outputs : List IcoOutput
  warned256 : Bool
  outcome : Outcome
  deriving DecidableEq, Repr

/-- Source lines 388-463, `run_conversion`: empty file list → message and
return; under 8-bit mode a selected 256 size triggers a warning dialog and
`selected_sizes.remove(256)` (first occurrence); empty remaining size list →
message and return; otherwise the per-file loop runs, stopping at the first
error. -/
def run_conversion (files : List SourceFile) (radius : ℕ)
    (selected_sizes : List ℕ) (use_32bit save_separately : Bool) : ConvResult :=
  if files.isEmpty then
    { outputs := [], warned256 := false, outcome := Outcome.noFiles }
  else
    let warn : Bool := decide (256 ∈ selected_sizes ∧ use_32bit = false)
    let sizes := if 256 ∈ selected_sizes ∧ use_32bit = false
      then selected_sizes.erase 256 else selected_sizes
    if sizes.isEmpty then
      { outputs := [], warned256 := warn, outcome := Outcome.noSizes }
    else
      let res := convertFiles files sizes save_separately
      { outputs := res.1, warned256 := warn,
        outcome := match res.2 with
          | some b => Outcome.errorAt b
          | none => Outcome.success res.1.length }

/-- Source lines 312-319, `add_files_to_list`: each path whose on-disk size
exceeds `MAX_FILE_SIZE_BYTES` is skipped; a path already present in the list
is not added again; otherwise the path is appended.  `fileSize` stands for
`os.path.getsize`. -/
def add_files_to_list (fileSize : String → ℕ) (items : List String)
    (file_paths : List String) : List String :=
  match file_paths with
  | [] => items
  | path :: rest =>
      if MAX_FILE_SIZE_BYTES < fileSize path then
        add_files_to_list fileSize items rest
      else if path ∈ items then
        add_files_to_list fileSize items rest
      else
        add_files_to_list fileSize (items ++ [path]) rest

/-- A concrete 2×2 test image whose pixels are partially transparent
(alpha 100). -/
def alphaImg : Img :=
  { width := 2, height := 2, pix := fun _ _ => { r := 10, g := 20, b := 30, a := 100 } }

/-- A concrete 2×2 test image with the same colors as `alphaImg` but a
different alpha channel (alpha 7). -/
def alphaImg7 : Img :=
  { width := 2, height := 2, pix := fun _ _ => { r := 10, g := 20, b := 30, a := 7 } }

/-- A concrete 4×4 fully opaque test image. -/
def opaqueImg : Img :=
  { width := 4, height := 4, pix := fun _ _ => { r := 1, g := 2, b := 3, a := 255 } }

/-- C3: for every image of positive width and height and every radius, the
effective corner radius used by the rounded-corner mask is
`min(radius, width / 2, height / 2)` with integer floor division: the alpha
value produced at any pixel is the mask of that clamped radius, and the clamp
is the greatest value bounded by all three quantities. -/
theorem safe_radius_clamp (image : Img) (radius x y : ℕ)
    (hw : 0 < image.width) (hh : 0 < image.height) :
    ((apply_rounded_corners_pil image radius).pix x y).a =
      (if roundedRectOpaque image.width image.height
          (min radius (min (image.width / 2) (image.height / 2))) x y
       then 255 else 0) ∧
    (∀ s : ℕ, s ≤ safe_radius radius image.width image.height ↔
      s ≤ radius ∧ s ≤ image.width / 2 ∧ s ≤ image.height / 2) := by
  constructor
  · rfl
  · intro s
    simp [safe_radius, Nat.le_min]

/-- Witness for `safe_radius_clamp` at a concrete 4×4 image and radius 5. -/
theorem safe_radius_clamp_witness :
    ((apply_rounded_corners_pil opaqueImg 5).pix 0 0).a =
      (if roundedRectOpaque opaqueImg.width opaqueImg.height
          (min 5 (min (opaqueImg.width / 2) (opaqueImg.height / 2))) 0 0
       then 255 else 0) ∧
    (∀ s : ℕ, s ≤ safe_radius 5 opaqueImg.width opaqueImg.height ↔
      s ≤ 5 ∧ s ≤ opaqueImg.width / 2 ∧ s ≤ opaqueImg.height / 2) :=
  safe_radius_clamp opaqueImg 5 0 0 (by decide) (by decide)

/-- C4 counterexample: with radius 0 the mask is entirely 255 and `putalpha`
replaces the alpha channel with it, so on an image with a partially
transparent pixel (alpha 100) the result's alpha differs from the input's:
radius 0 is not the identity on the alpha channel. -/
theorem radius_zero_not_identity :
    ((apply_rounded_corners_pil alphaImg 0).pix 0 0).a ≠ (alphaImg.pix 0 0).a := by
  decide

/-- C4 amended: with radius 0 the operation sets every in-bounds pixel's
alpha to 255 and leaves the color channels unchanged; consequently it is the
identity exactly on pixels that are already fully opaque. -/
theorem radius_zero_alpha_saturates (image : Img) (x y : ℕ)
    (hx : x < image.width) (hy : y < image.height) :
    ((apply_rounded_corners_pil image 0).pix x y).a = 255 ∧
    ((apply_rounded_corners_pil image 0).pix x y).r = (image.pix x y).r ∧
    ((apply_rounded_corners_pil image 0).pix x y).g = (image.pix x y).g ∧
    ((apply_rounded_corners_pil image 0).pix x y).b = (image.pix x y).b ∧
    ((image.pix x y).a = 255 →
      (apply_rounded_corners_pil image 0).pix x y = image.pix x y) := by
  have h0 : safe_radius 0 image.width image.height = 0 := by
    simp [safe_radius]
  have hop : roundedRectOpaque image.width image.height 0 x y = true := by
    unfold roundedRectOpaque
    split_ifs with h1 h2 h3 h4
    · exact absurd h1 (by omega)
    · exact absurd h2 (by omega)
    · exact absurd h3 (by omega)
    · exact absurd h4 (by omega)
    · rfl
  have hmask : maskValue image.width image.height 0 x y = 255 := by
    unfold maskValue
    rw [h0, hop]
    rfl
  refine ⟨hmask, rfl, rfl, rfl, ?_⟩
  intro ha
  show ({ image.pix x y with a := maskValue image.width image.height 0 x y } : RGBA)
    = image.pix x y
  rw [hmask, ← ha]

/-- Witness for `radius_zero_alpha_saturates` at the fully opaque 4×4 image,
pixel (1, 2). -/
theorem radius_zero_alpha_saturates_witness :
    ((apply_rounded_corners_pil opaqueImg 0).pix 1 2).a = 255 ∧
    ((apply_rounded_corners_pil opaqueImg 0).pix 1 2).r = (opaqueImg.pix 1 2).r ∧
    ((apply_rounded_corners_pil opaqueImg 0).pix 1 2).g = (opaqueImg.pix 1 2).g ∧
    ((apply_rounded_corners_pil opaqueImg 0).pix 1 2).b = (opaqueImg.pix 1 2).b ∧
    ((opaqueImg.pix 1 2).a = 255 →
      (apply_rounded_corners_pil opaqueImg 0).pix 1 2 = opaqueImg.pix 1 2) :=
  radius_zero_alpha_saturates opaqueImg 1 2 (by decide) (by decide)

/-- C6: the rounded-corner operation replaces the alpha channel with the
rounded-rectangle mask and keeps every pixel's R, G, B channels: each color
channel of the result equals the input's, the result's alpha is exactly the
mask value, and the result does not depend on the input's alpha channel at
all (two images agreeing on dimensions and colors but with arbitrary alphas
produce identical results). -/
theorem putalpha_replaces_alpha (image other : Img) (radius x y : ℕ) :
    ((apply_rounded_corners_pil image radius).pix x y).r = (image.pix x y).r ∧
    ((apply_rounded_corners_pil image radius).pix x y).g = (image.pix x y).g ∧
    ((apply_rounded_corners_pil image radius).pix x y).b = (image.pix x y).b ∧
    ((apply_rounded_corners_pil image radius).pix x y).a =
      maskValue image.width image.height radius x y ∧
    (other.width = image.width → other.height = image.height →
      (other.pix x y).r = (image.pix x y).r →
      (other.pix x y).g = (image.pix x y).g →
      (other.pix x y).b = (image.pix x y).b →
      (apply_rounded_corners_pil other radius).pix x y =
        (apply_rounded_corners_pil image radius).pix x y) := by
  refine ⟨rfl, rfl, rfl, rfl, ?_⟩
  intro hw hh hr hg hb
  show ({ other.pix x y with a := maskValue other.width other.height radius x y } : RGBA)
    = { image.pix x y with a := maskValue image.width image.height radius x y }
  rw [hw, hh]
  cases hpo : other.pix x y
  cases hpi : image.pix x y
  rw [hpo, hpi] at hr hg hb
  simp_all

/-- Witness for `putalpha_replaces_alpha`: two concrete images share colors
but have different alpha channels (100 vs 7), and their rounded-corner
results coincide at pixel (0, 0). -/
theorem putalpha_replaces_alpha_witness :
    (apply_rounded_corners_pil alphaImg7 3).pix 0 0 =
      (apply_rounded_corners_pil alphaImg 3).pix 0 0 :=
  (putalpha_replaces_alpha alphaImg alphaImg7 3 0 0).2.2.2.2 rfl rfl rfl rfl rfl

/-- C8: in combined mode exactly one output named `<name>.ico` is produced,
holding one directory entry per selected size; in separate mode one output
per selected size is produced, named `<name>_<size>.ico` and holding exactly
that single size.  Both modes build every output through the same
`outputsForFile` encode call. -/
theorem output_modes (base_name : String) (selected_sizes : List ℕ) :
    outputsForFile base_name selected_sizes false =
      [{ filename := base_name ++ ".ico", entrySizes := selected_sizes }] ∧
    (outputsForFile base_name selected_sizes true).length = selected_sizes.length ∧
    (∀ k (hk : k < selected_sizes.length),
      (outputsForFile base_name selected_sizes true)[k]? =
        some { filename := base_name ++ "_" ++ toString (selected_sizes.get ⟨k, hk⟩) ++ ".ico",
               entrySizes := [selected_sizes.get ⟨k, hk⟩] }) := by
  refine ⟨rfl, by simp [outputsForFile], ?_⟩
  intro k hk
  simp [outputsForFile, List.getElem?_eq_getElem hk]

/-- Witness for `output_modes`: base name "img", sizes `[16, 32]`, first
separate-mode output. -/
theorem output_modes_witness :
    (outputsForFile "img" [16, 32] true)[0]? =
      some { filename := "img" ++ "_" ++ toString (16:ℕ) ++ ".ico", entrySizes := [16] } :=
  (output_modes "img" [16, 32]).2.2 0 (by decide)

/-- C9: `add_files_to_list` skips any path whose file size exceeds
`MAX_FILE_SIZE_BYTES` and any path already present, so from a list whose
entries are pairwise distinct and all within the size bound, the resulting
list again has pairwise distinct entries all within the size bound. -/
theorem add_files_invariant (fileSize : String → ℕ) (items file_paths : List String)
    (hnd : items.Nodup)
    (hsz : ∀ p ∈ items, fileSize p ≤ MAX_FILE_SIZE_BYTES) :
    (add_files_to_list fileSize items file_paths).Nodup ∧
    ∀ p ∈ add_files_to_list fileSize items file_paths,
      fileSize p ≤ MAX_FILE_SIZE_BYTES := by
  induction file_paths generalizing items with
  | nil => exact ⟨hnd, hsz⟩
  | cons path rest ih =>
      unfold add_files_to_list
      split_ifs with h1 h2
      · exact ih items hnd hsz
      · exact ih items hnd hsz
      · refine ih (items ++ [path]) ?_ ?_
        · rw [List.nodup_append]
          exact ⟨hnd, List.nodup_singleton path,
            fun a ha hb => h2 (List.mem_singleton.mp hb ▸ ha)⟩
        · intro p hp
          rcases List.mem_append.mp hp with hp | hp
          · exact hsz p hp
          · rw [List.mem_singleton.mp hp]
            omega

/-- Witness for `add_files_invariant`: starting list `["x"]`, adding
`["a", "a", "bb"]` with `String.length` as the size oracle. -/
theorem add_files_invariant_witness :
    (add_files_to_list String.length ["x"] ["a", "a", "bb"]).Nodup ∧
    ∀ p ∈ add_files_to_list String.length ["x"] ["a", "a", "bb"],
      String.length p ≤ MAX_FILE_SIZE_BYTES :=
  add_files_invariant String.length ["x"] ["a", "a", "bb"] (by decide) (by decide)

/-- C5 counterexample: for a non-square 16×4 image and radius 8 (which is
`max(width,height)/2`), the clamped mask keeps pixel (1, 0) opaque although
that pixel lies outside the ellipse inscribed in the image: the mask
degenerates to a stadium of radius `min(w/2, h/2)`, not to the inscribed
ellipse. -/
theorem clamp_not_inscribed_ellipse :
    max 16 4 / 2 ≤ 8 ∧ maskValue 16 4 8 1 0 = 255 ∧
      inscribedEllipse 16 4 1 0 = false := by
  decide

/-- Helper: scaling both coordinates of a squared-distance bound by a
positive factor preserves the inequality in both directions. -/
theorem scaled_sq_le (u v k : ℤ) (hk : 0 < k) :
    ((u * k) ^ 2 + (v * k) ^ 2 ≤ (k * k) ^ 2) ↔ (u ^ 2 + v ^ 2 ≤ k ^ 2) := by
  rw [show (u * k) ^ 2 + (v * k) ^ 2 = (u ^ 2 + v ^ 2) * k ^ 2 by ring,
      show (k * k) ^ 2 = k ^ 2 * k ^ 2 by ring]
  exact mul_le_mul_right (by positivity)

/-- C5 amended: for a square image of even side `2c` and any radius
`r ≥ c = max(width,height)/2`, the mask degenerates to the full circle
inscribed in the image (all four corner quarter-circles share the image
center); for non-square images the clamp yields a stadium instead (see
`clamp_not_inscribed_ellipse`). -/
theorem clamp_square_mask_is_circle (c r x y : ℕ) (hc : 0 < c) (hr : c ≤ r) :
    maskValue (2 * c) (2 * c) r x y =
      (if inscribedEllipse (2 * c) (2 * c) x y then 255 else 0) := by
  have hsafe : safe_radius r (2 * c) (2 * c) = c := by
    unfold safe_radius
    have h2 : 2 * c / 2 = c := by omega
    rw [h2, Nat.min_self, Nat.min_eq_right hr]
  have hw : 2 * c - c = c := by omega
  have hop : roundedRectOpaque (2 * c) (2 * c) c x y = inCorner c c c x y := by
    unfold roundedRectOpaque
    rw [hw]
    split_ifs with h1 h2 h3 h4
    · rfl
    · rfl
    · rfl
    · rfl
    · exfalso
      omega
  have hcz : (0 : ℤ) < (c : ℤ) := by exact_mod_cast hc
  have key : inCorner c c c x y = inscribedEllipse (2 * c) (2 * c) x y := by
    unfold inCorner inscribedEllipse
    rw [decide_eq_decide]
    push_cast
    rw [show (4 : ℤ) * (c : ℤ) ^ 2 = (2 * (c : ℤ)) ^ 2 by ring]
    rw [← scaled_sq_le (2 * (x : ℤ) + 1 - 2 * (c : ℤ))
          (2 * (y : ℤ) + 1 - 2 * (c : ℤ)) (2 * (c : ℤ)) (by positivity)]
  unfold maskValue
  rw [hsafe, hop, key]

/-- Witness for `clamp_square_mask_is_circle`: 2×2 image, radius 1,
pixel (0, 0). -/
theorem clamp_square_mask_is_circle_witness :
    maskValue (2 * 1) (2 * 1) 1 0 0 =
      (if inscribedEllipse (2 * 1) (2 * 1) 0 0 then 255 else 0) :=
  clamp_square_mask_is_circle 1 1 0 0 (by decide) (by decide)

/-- Helper: setting the position right after a list, inside an appended
singleton, replaces that singleton. -/
theorem set_append_singleton (l : List Img) (c v : Img) :
    (l ++ [c]).set l.length v = l ++ [v] := by
  induction l with
  | nil => rfl
  | cons a t ih =>
      show a :: ((t ++ [c]).set t.length v) = a :: (t ++ [v])
      rw [ih]

/-- Helper: indexing below the original length ignores an appended
singleton. -/
theorem getElem_opt_append_lt (l : List Img) (v : Img) (k : ℕ) (hk : k < l.length) :
    (l ++ [v])[k]? = l[k]? := by
  induction l generalizing k with
  | nil => exact absurd hk (by simp)
  | cons a t ih =>
      cases k with
      | zero => simp
      | succ k =>
          rw [List.cons_append, List.getElem?_cons_succ, List.getElem?_cons_succ]
          exact ih k (by simpa using hk)

/-- Helper: indexing an appended singleton at the original length yields it. -/
theorem getElem_opt_append_length (l : List Img) (v : Img) :
    (l ++ [v])[l.length]? = some v := by
  induction l with
  | nil => rfl
  | cons a t ih =>
      rw [List.cons_append, List.length_cons, List.getElem?_cons_succ]
      exact ih

/-- C7: `apply_rounded_corners_pil` has no side effect on its input: in the
heap-level rendering, every object of the store — in particular the input
image at index `i` — is unchanged by the call, and the returned result is a
fresh object (at the previously unused index `store.length`) holding exactly
the pure rounded-corner transform of the input. -/
theorem apply_rounded_corners_no_mutation (store : List Img) (i radius : ℕ)
    (h : i < store.length) :
    (∀ k, k < store.length →
      ((apply_rounded_corners_st store i radius).1)[k]? = store[k]?) ∧
    (apply_rounded_corners_st store i radius).2 = store.length ∧
    ((apply_rounded_corners_st store i radius).1)[store.length]? =
      (store[i]?).map (fun image => apply_rounded_corners_pil image radius) := by
  obtain ⟨image, himg⟩ : ∃ image, store[i]? = some image :=
    ⟨store.get ⟨i, h⟩, by simp [List.getElem?_eq_getElem h]⟩
  have e : apply_rounded_corners_st store i radius =
      (store ++ [putalpha image.copy
        (fun x y => maskValue image.width image.height radius x y)], store.length) := by
    unfold apply_rounded_corners_st
    rw [himg]
    show ((store ++ [image.copy]).set store.length
      (putalpha image.copy
        (fun x y => maskValue image.width image.height radius x y)),
      store.length) = _
    rw [set_append_singleton]
  refine ⟨?_, ?_, ?_⟩
  · intro k hk
    rw [e]
    exact getElem_opt_append_lt store _ k hk
  · rw [e]
  · rw [e, himg]
    show (store ++ [putalpha image.copy
      (fun x y => maskValue image.width image.height radius x y)])[store.length]?
        = Option.map (fun image => apply_rounded_corners_pil image radius) (some image)
    rw [getElem_opt_append_length]
    rfl

/-- Witness for `apply_rounded_corners_no_mutation`: a one-image store,
index 0, radius 5. -/
theorem apply_rounded_corners_no_mutation_witness :
    (∀ k, k < ([alphaImg] : List Img).length →
      ((apply_rounded_corners_st [alphaImg] 0 5).1)[k]? = ([alphaImg] : List Img)[k]?) ∧
    (apply_rounded_corners_st [alphaImg] 0 5).2 = ([alphaImg] : List Img).length ∧
    ((apply_rounded_corners_st [alphaImg] 0 5).1)[([alphaImg] : List Img).length]? =
      (([alphaImg] : List Img)[0]?).map
        (fun image => apply_rounded_corners_pil image 5) :=
  apply_rounded_corners_no_mutation [alphaImg] 0 5 (by decide)

/-- C10: with an empty file list, or when no size remains selected after the
8-bit removal of 256, `run_conversion` writes no output and returns after
reporting (`noFiles` or `noSizes`). -/
theorem empty_inputs_no_output (files : List SourceFile) (radius : ℕ)
    (selected_sizes : List ℕ) (use_32bit save_separately : Bool)
    (h : files = [] ∨
      (if 256 ∈ selected_sizes ∧ use_32bit = false
       then selected_sizes.erase 256 else selected_sizes) = []) :
    (run_conversion files radius selected_sizes use_32bit save_separately).outputs = [] ∧
    ((run_conversion files radius selected_sizes use_32bit save_separately).outcome
        = Outcome.noFiles ∨
     (run_conversion files radius selected_sizes use_32bit save_separately).outcome
        = Outcome.noSizes) := by
  unfold run_conversion
  rcases h with h | h
  · subst h
    simp
  · by_cases hf : files.isEmpty
    · simp [hf]
    · simp [hf, h]

/-- Witness for `empty_inputs_no_output`: one valid file but 256 as the only
selected size under 8-bit mode. -/
theorem empty_inputs_no_output_witness :
    (run_conversion [{ base_name := "a", ok := true }] 0 [256] false false).outputs = [] ∧
    ((run_conversion [{ base_name := "a", ok := true }] 0 [256] false false).outcome
        = Outcome.noFiles ∨
     (run_conversion [{ base_name := "a", ok := true }] 0 [256] false false).outcome
        = Outcome.noSizes) :=
  empty_inputs_no_output [{ base_name := "a", ok := true }] 0 [256] false false
    (Or.inr (by decide))

/-- C1 counterexample: requesting sizes `[16, 256]` under 8-bit mode for one
valid source does not fail and does emit an output: the 256 entry is silently
dropped (after a warning dialog) and `a.ico` is written with the single
16-pixel entry, ending in success — contradicting the claim that the encode
fails with `UnsupportedSizeForBitDepth` and emits no file. -/
theorem silent_drop_256 :
    (run_conversion [{ base_name := "a", ok := true }] 0 [16, 256] false false).outputs =
      [{ filename := "a.ico", entrySizes := [16] }] ∧
    (run_conversion [{ base_name := "a", ok := true }] 0 [16, 256] false false).outcome =
      Outcome.success 1 := by
  decide

/-- Helper: every entry size of an output produced by `outputsForFile` comes
from the selected size list. -/
theorem entry_mem_outputsForFile (b : String) (sizes : List ℕ) (sep : Bool)
    (out : IcoOutput) (hout : out ∈ outputsForFile b sizes sep) :
    ∀ s ∈ out.entrySizes, s ∈ sizes := by
  unfold outputsForFile at hout
  split_ifs at hout with hsep
  · obtain ⟨size, hsz, hdef⟩ := List.mem_map.mp hout
    intro s hs
    rw [← hdef] at hs
    simp at hs
    rw [hs]
    exact hsz
  · rw [List.mem_singleton] at hout
    rw [hout]
    intro s hs
    exact hs

/-- Helper: every entry size of an output produced by the conversion loop
comes from the selected size list. -/
theorem entry_mem_convertFiles (files : List SourceFile) (sizes : List ℕ)
    (sep : Bool) (out : IcoOutput)
    (hout : out ∈ (convertFiles files sizes sep).1) :
    ∀ s ∈ out.entrySizes, s ∈ sizes := by
  induction files with
  | nil => simp [convertFiles] at hout
  | cons f rest ih =>
      unfold convertFiles at hout
      split_ifs at hout with hok
      · rcases List.mem_append.mp hout with h | h
        · exact entry_mem_outputsForFile _ _ _ _ h
        · exact ih h
      · simp at hout

/-- C1 amended: under 8-bit mode with 256 among the (distinct) selected
sizes, `run_conversion` shows the warning dialog, removes the 256 entry and
proceeds with the remaining sizes, so no written output contains a 256 entry;
only when 256 was the sole selected size does it stop with no output at all —
reporting "no sizes selected", not an `UnsupportedSizeForBitDepth` failure. -/
theorem warn_and_drop_256 (files : List SourceFile) (radius : ℕ)
    (selected_sizes : List ℕ) (save_separately : Bool)
    (h256 : 256 ∈ selected_sizes) (hnd : selected_sizes.Nodup)
    (hne : files ≠ []) :
    (run_conversion files radius selected_sizes false save_separately).warned256 = true ∧
    (∀ out ∈ (run_conversion files radius selected_sizes false save_separately).outputs,
      256 ∉ out.entrySizes) ∧
    (selected_sizes.erase 256 = [] →
      (run_conversion files radius selected_sizes false save_separately).outputs = [] ∧
      (run_conversion files radius selected_sizes false save_separately).outcome =
        Outcome.noSizes) := by
  have hfe : files.isEmpty = false := by
    cases files
    · exact absurd rfl hne
    · rfl
  have h256e : 256 ∉ selected_sizes.erase 256 := hnd.not_mem_erase
  unfold run_conversion
  simp only [hfe, Bool.false_eq_true, if_false, h256, eq_self_iff_true, and_true, and_self,
    if_true, decide_True]
  by_cases hS : selected_sizes.erase 256 = []
  · simp only [hS, List.isEmpty_nil, if_true]
    refine ⟨trivial, ?_, ?_⟩
    · intro out hout
      simp at hout
    · intro _
      exact ⟨trivial, trivial⟩
  · have hSe : (selected_sizes.erase 256).isEmpty = false := by
      cases h : selected_sizes.erase 256
      · exact absurd h hS
      · rfl
    simp only [hSe, Bool.false_eq_true, if_false]
    refine ⟨trivial, ?_, ?_⟩
    · intro out hout hmem
      exact h256e (entry_mem_convertFiles files _ save_separately out hout 256 hmem)
    · intro hnil
      exact absurd hnil hS

/-- Witness for `warn_and_drop_256`: one valid file, sizes `[16, 256]`,
combined mode. -/
theorem warn_and_drop_256_witness :
    (run_conversion [{ base_name := "a", ok := true }] 0 [16, 256] false false).warned256
      = true ∧
    (∀ out ∈ (run_conversion [{ base_name := "a", ok := true }] 0 [16, 256]
        false false).outputs, 256 ∉ out.entrySizes) ∧
    (([16, 256] : List ℕ).erase 256 = [] →
      (run_conversion [{ base_name := "a", ok := true }] 0 [16, 256] false false).outputs
        = [] ∧
      (run_conversion [{ base_name := "a", ok := true }] 0 [16, 256] false false).outcome
        = Outcome.noSizes) :=
  warn_and_drop_256 [{ base_name := "a", ok := true }] 0 [16, 256] false
    (by decide) (by decide) (by decide)

/-- C2 counterexample: in a batch of three sources whose first is corrupted,
sizes `[16, 32]` under 32-bit mode, the conversion reports the failure and
stops ("return # Stop the process on error"): zero output files are produced
although two sources are valid — contradicting the claim that processing
continues and every non-failing file still yields its output. -/
theorem batch_abort_on_first_error :
    (run_conversion [{ base_name := "bad", ok := false },
      { base_name := "g1", ok := true }, { base_name := "g2", ok := true }]
      0 [16, 32] true false).outputs = [] ∧
    (run_conversion [{ base_name := "bad", ok := false },
      { base_name := "g1", ok := true }, { base_name := "g2", ok := true }]
      0 [16, 32] true false).outcome = Outcome.errorAt "bad" := by
  decide

/-- Helper: the conversion loop over files with an all-valid prefix, then a
failing file, produces exactly the prefix's outputs and reports the failing
file's name. -/
theorem convertFiles_stops_at_failure (good : List SourceFile) (bad : SourceFile)
    (rest : List SourceFile) (sizes : List ℕ) (sep : Bool)
    (hgood : ∀ f ∈ good, f.ok = true) (hbad : bad.ok = false) :
    convertFiles (good ++ bad :: rest) sizes sep =
      ((good.map (fun f => outputsForFile f.base_name sizes sep)).flatten,
       some bad.base_name) := by
  induction good with
  | nil => simp [convertFiles, hbad]
  | cons f t ih =>
      have hf : f.ok = true := hgood f (List.mem_cons_self f t)
      have ht := ih (fun g hg => hgood g (List.mem_cons_of_mem f hg))
      simp [convertFiles, hf, ht]

/-- C2 amended: conversion stops at the first failing file: the files before
it each produce their outputs, the failure is reported with that file's name,
and the files after it produce nothing (so only when the corrupted file comes
last do all other files yield outputs; no file is produced for the corrupted
input itself). -/
theorem batch_stops_at_first_failure (good : List SourceFile) (bad : SourceFile)
    (rest : List SourceFile) (radius : ℕ) (sizes : List ℕ) (sep : Bool)
    (hgood : ∀ f ∈ good, f.ok = true) (hbad : bad.ok = false)
    (hsz : sizes ≠ []) :
    (run_conversion (good ++ bad :: rest) radius sizes true sep).outputs =
      (good.map (fun f => outputsForFile f.base_name sizes sep)).flatten ∧
    (run_conversion (good ++ bad :: rest) radius sizes true sep).outcome =
      Outcome.errorAt bad.base_name := by
  have hfe : (good ++ bad :: rest).isEmpty = false := by
    cases good
    · rfl
    · rfl
  have hcond : ¬(256 ∈ sizes ∧ (true : Bool) = false) := by
    simp
  have hse : sizes.isEmpty = false := by
    cases sizes
    · exact absurd rfl hsz
    · rfl
  unfold run_conversion
  rw [hfe]
  simp only [Bool.false_eq_true, if_false, if_neg hcond]
  rw [hse]
  simp only [Bool.false_eq_true, if_false]
  rw [convertFiles_stops_at_failure good bad rest sizes sep hgood hbad]
  exact ⟨rfl, rfl⟩

/-- Witness for `batch_stops_at_first_failure`: good file "g1", corrupted
file "bad", then "g2"; sizes `[16, 32]`, combined mode: only `g1.ico` is
produced and the failure of "bad" is reported. -/
theorem batch_stops_at_first_failure_witness :
    (run_conversion [{ base_name := "g1", ok := true },
        { base_name := "bad", ok := false }, { base_name := "g2", ok := true }]
        0 [16, 32] true false).outputs =
      (([{ base_name := "g1", ok := true }] : List SourceFile).map
        (fun f => outputsForFile f.base_name [16, 32] false)).flatten ∧
    (run_conversion [{ base_name := "g1", ok := true },
        { base_name := "bad", ok := false }, { base_name := "g2", ok := true }]
        0 [16, 32] true false).outcome = Outcome.errorAt "bad" :=
  batch_stops_at_first_failure [{ base_name := "g1", ok := true }]
    { base_name := "bad", ok := false } [{ base_name := "g2", ok := true }]
    0 [16, 32] false (by decide) (by decide) (by decide)

end IconForge
